import Mathlib

/-!
A shallow embedding of the frame batch pipeline of `src/waifu2x.ts` (class
`Waifu2x`), covering the bounded batch scheduler, the GIF timing transform,
the reverse step, the workspace teardown routine `removeDirectory`, the
scale-1 bypass branch and the option-record writes of `upscaleGIF`.

Modelling conventions:
* JS numbers used as counters, limits and indices are `ℕ`; frame delays and
  the `speed` option are `ℚ` (the source only divides and compares them).
* The concurrent `Promise.all` fan-out over one batch group is determinised:
  the frames of a group are folded in dispatch order.  In the source every
  per-frame effect (push of the result, `counter++`, progress invocation,
  setting `cancel`) happens atomically per settled frame, the `counter >=
  limit` checks of a group all execute synchronously before the first frame
  of the group settles, and the `cancel` flag is only consulted at the group
  boundary, so none of the facts proved below depend on the interleaving.
* `options.limit` and `options.parallelFrames` are encoded as `ℕ` where `0`
  stands for the JS falsy values (`undefined` or `0`) that the source
  replaces by a default (`if (!options.limit) ...`).
-/

namespace Waifu2x

variable {α β : Type*}

/-- State of the batch scheduling loop of `upscaleImages` (src/waifu2x.ts
lines 196-213) and of the per-frame loops of `upscaleGIF` (lines 294-309)
and `upscaleVideo` (lines 399-414): the `counter` variable, the `cancel`
flag, the frames handed to the per-frame work function (in dispatch order),
the pushed results (`retArray` / `scaledFrames`) and the `(current, total)`
argument pairs of every progress-callback invocation so far. -/
structure SchedState (α β : Type*) where
  counter : ℕ
  cancel : Bool
  dispatched : List α
  results : List β
  calls : List (ℕ × ℕ)

/-- One step of `while (fileMap.length) queue.push(fileMap.splice(0,
options.parallelFrames))` (src/waifu2x.ts lines 202, 299, 404): chunks of
size `p + 1` are split off the front of the list.  `fuel` bounds the number
of loop iterations; the callers pass the list length, which suffices since
every iteration consumes at least one element. -/
def chunkQueueAux (p : ℕ) : ℕ → List α → List (List α)
  | _, [] => []
  | 0, _ :: _ => []
  | fuel + 1, x :: xs => (x :: xs.take p) :: chunkQueueAux p fuel (xs.drop p)

/-- The group queue built by the scheduler: `if (!options.parallelFrames)
options.parallelFrames = 1` followed by the splice loop (src/waifu2x.ts
lines 201-202, 298-299, 403-404).  `parallelFrames = 0` encodes the JS
falsy values replaced by the default `1`. -/
def buildQueue (parallelFrames : ℕ) (l : List α) : List (List α) :=
  chunkQueueAux ((if parallelFrames = 0 then 1 else parallelFrames) - 1) l.length l

/-- Effect of one frame settling inside a group (src/waifu2x.ts lines
205-210): the result is pushed, and when a progress callback is supplied it
is invoked as `progress(counter++, total)`; a truthy return sets `cancel`.
When no callback is supplied (`progress = none`) the counter is not
incremented, exactly as in `const stop = progress ? progress(counter++,
total) : false`. -/
def runFrame (work : α → β) (progress : Option (ℕ → ℕ → Bool)) (total : ℕ)
    (st : SchedState α β) (f : α) : SchedState α β :=
  let st1 : SchedState α β :=
    { st with dispatched := st.dispatched ++ [f], results := st.results ++ [work f] }
  match progress with
  | none => st1
  | some p =>
    let stop := p st1.counter total
    { st1 with
        counter := st1.counter + 1
        calls := st1.calls ++ [(st1.counter, total)]
        cancel := st1.cancel || stop }

/-- One group of the `upscaleGIF` / `upscaleVideo` per-frame loop
(src/waifu2x.ts lines 302-307, 407-412): every frame of the group is
dispatched and settles (`Promise.all`); there is no limit check. -/
def runGroupGIF (work : α → β) (progress : Option (ℕ → ℕ → Bool)) (total : ℕ)
    (st : SchedState α β) (g : List α) : SchedState α β :=
  g.foldl (runFrame work progress total) st

/-- One group of the `upscaleImages` loop (src/waifu2x.ts lines 205-211).
Each frame of the group runs `if (counter >= options.limit) cancel = true`
synchronously at dispatch, before any frame of the group settles, so all
checks observe the counter value at group entry; the model performs the
check once on entering the group.  The whole group is then dispatched and
drained. -/
def runGroupImages (work : α → β) (progress : Option (ℕ → ℕ → Bool))
    (total limit : ℕ) (st : SchedState α β) (g : List α) : SchedState α β :=
  g.foldl (runFrame work progress total)
    (if limit ≤ st.counter then { st with cancel := true } else st)

/-- The group loop `for (let i = 0; i < queue.length; i++) { await
Promise.all(...); if (cancel) break }` (src/waifu2x.ts lines 204-213,
301-309, 406-414): groups run strictly in order and the `cancel` flag is
consulted only after a group has been fully drained. -/
def runQueueSched (runGroup : SchedState α β → List α → SchedState α β) :
    List (List α) → SchedState α β → SchedState α β
  | [], st => st
  | g :: gs, st =>
    let st1 := runGroup st g
    if st1.cancel then st1 else runQueueSched runGroup gs st1

/-- The batch scheduling loop of `upscaleImages` (src/waifu2x.ts lines
195-214): `limit` defaults to the file count, `parallelFrames` to 1, the
counter starts at 1, and when a progress callback is supplied it is first
invoked as `progress(0, total)` (return value ignored, counter untouched). -/
def upscaleImagesSched (parallelFrames limit : ℕ) (work : α → β)
    (progress : Option (ℕ → ℕ → Bool)) (frames : List α) : SchedState α β :=
  let total := frames.length
  let L := if limit = 0 then total else limit
  let queue := buildQueue parallelFrames frames
  let st0 : SchedState α β :=
    { counter := 1, cancel := false, dispatched := [], results := []
      calls := match progress with | some _ => [(0, total)] | none => [] }
  runQueueSched (runGroupImages work progress total L) queue st0

/-- The per-frame scheduling loop of `upscaleGIF` (src/waifu2x.ts lines
294-309; `upscaleVideo` lines 399-414 is identical): the counter starts at
0, and when a progress callback is supplied it is first invoked as
`progress(counter++, total)`, leaving the counter at 1.  There is no item
limit in this loop. -/
def upscaleGIFSched (parallelFrames : ℕ) (work : α → β)
    (progress : Option (ℕ → ℕ → Bool)) (frames : List α) : SchedState α β :=
  let total := frames.length
  let queue := buildQueue parallelFrames frames
  let st0 : SchedState α β :=
    match progress with
    | some _ =>
      { counter := 1, cancel := false, dispatched := [], results := [], calls := [(0, total)] }
    | none =>
      { counter := 0, cancel := false, dispatched := [], results := [], calls := [] }
  runQueueSched (runGroupGIF work progress total) queue st0

/-- The subsampling divisor of `upscaleGIF` (src/waifu2x.ts line 272):
`const constraint = options.speed > 1 ? frames.length / options.speed :
frames.length`. -/
def gifConstraint (speed : ℚ) (n : ℕ) : ℚ :=
  if 1 < speed then (n : ℚ) / speed else (n : ℚ)

/-- The frame-selection stride of `upscaleGIF` (src/waifu2x.ts line 273):
`let step = Math.ceil(frames.length / constraint)`. -/
def gifStep (speed : ℚ) (n : ℕ) : ℤ :=
  ⌈(n : ℚ) / gifConstraint speed n⌉

/-- The stride used as a loop increment (`i += step`); never negative for
the values the source produces. -/
def gifStepNat (speed : ℚ) (n : ℕ) : ℕ :=
  (gifStep speed n).toNat

/-- The index sequence of `for (let i = 0; i < frames.length; i += step)`
(src/waifu2x.ts line 278).  `fuel` bounds the iteration count; the caller
passes `n`, which suffices whenever `step ≥ 1` (the only case the source
reaches with a nonempty frame list). -/
def strideIndicesAux (n step : ℕ) : ℕ → ℕ → List ℕ
  | _, 0 => []
  | i, fuel + 1 => if i < n then i :: strideIndicesAux n step (i + step) fuel else []

/-- Indices of the decomposed frames retained by `downloadFrames`. -/
def strideIndices (n step : ℕ) : List ℕ :=
  strideIndicesAux n step 0 n

/-- The `downloadFrames` selection loop of `upscaleGIF` (src/waifu2x.ts
lines 276-285): for every retained index the frame artifact is pushed onto
`frameArray` and its raw `frameInfo.delay` onto `delayArray`.  A decomposed
frame is a pair of its artifact and its delay. -/
def downloadFrames {F : Type*} (frames : List (F × ℚ)) (step : ℕ) :
    List F × List ℚ :=
  let idx := strideIndices frames.length step
  (idx.filterMap (fun i => (frames[i]?).map Prod.fst),
   idx.filterMap (fun i => (frames[i]?).map Prod.snd))

/-- The slow-down delay adjustment of `upscaleGIF` (src/waifu2x.ts line
288): `if (options.speed < 1) delayArray = delayArray.map((n) => n /
options.speed)`. -/
def adjustDelays (speed : ℚ) (delays : List ℚ) : List ℚ :=
  if speed < 1 then delays.map (fun d => d / speed) else delays

/-- The reverse step of `upscaleGIF` (src/waifu2x.ts lines 313-316): when
`options.reverse` is set, `scaledFrames` and `delayArray` are both
reversed; otherwise both are left alone. -/
def reverseStep (reverse : Bool) (frames : List α) (delays : List ℚ) :
    List α × List ℚ :=
  if reverse then (frames.reverse, delays.reverse) else (frames, delays)

/-- The scale branch of `upscaleGIF` (src/waifu2x.ts lines 292-312; the
same shape appears in `upscaleVideo` lines 397-418): `if (options.scale
!== 1)` the per-frame scheduler runs the upscaling work function, `else
scaledFrames = frameArray` passes the decomposed frames through untouched.
Returns the frames handed to reassembly together with the list of frames
that were dispatched to the work function. -/
def gifScaleBranch (scale : Option ℚ) (parallelFrames : ℕ) (work : α → α)
    (progress : Option (ℕ → ℕ → Bool)) (frames : List α) : List α × List α :=
  if scale ≠ some 1 then
    let st := upscaleGIFSched parallelFrames work progress frames
    (st.results, st.dispatched)
  else (frames, [])

/-- The tail of `upscaleGIF` as a sequence of fallible stages
(src/waifu2x.ts lines 263-320; `upscaleVideo` lines 374-456 has the same
shape): frame extraction, the per-frame upscale loop, `encodeGIF`, and then
the plain trailing call `Waifu2x.removeDirectory(frameDest)` on line 318.
There is no try/finally around the pipeline, so a raised error propagates
to the caller without reaching the cleanup call.  The second component
records whether `removeDirectory(frameDest)` ran at job end. -/
def upscaleGIFCleanupTrace (extract : Except String (List String))
    (upscaleAll : List String → Except String (List String))
    (encode : List String → Except String String) :
    Except String String × Bool :=
  match extract with
  | .error e => (.error e, false)
  | .ok frames =>
    match upscaleAll frames with
    | .error e => (.error e, false)
    | .ok scaled =>
      match encode scaled with
      | .error e => (.error e, false)
      | .ok out => (.ok out, true)

/-- Splits a path string at every `/`, like the component view the
filesystem takes of the strings `removeDirectory` receives. -/
def splitPathAux : List Char → List Char → List String
  | [], acc => [String.mk acc.reverse]
  | c :: cs, acc =>
    if c = '/' then String.mk acc.reverse :: splitPathAux cs [] else splitPathAux cs (c :: acc)

/-- Component list of a path string. -/
def splitPath (p : String) : List String :=
  (splitPathAux p.data [])

/-- Modelled from the spec: the "resolved path" of §4.3 — POSIX resolution
of an absolute path, dropping empty components and `.` and letting `..`
discard the previous component.  The empty component list denotes the
filesystem root.  The source itself never resolves the string it guards on
(`dir === "/" || dir === "./"`, src/waifu2x.ts line 481); this definition
only interprets the claim's phrase "resolved value" and models how the
filesystem itself (`fs.existsSync` / `fs.readdirSync`) treats the string. -/
def resolveComponents (p : String) : List String :=
  (splitPath p).foldl
    (fun acc c =>
      if c = "" ∨ c = "." then acc
      else if c = ".." then acc.dropLast else acc ++ [c]) []

/-- `d` is an ancestor-or-self of `q` in component form. -/
def isAncestorOf : List String → List String → Bool
  | [], _ => true
  | _ :: _, [] => false
  | a :: as, b :: bs => a == b && isAncestorOf as bs

/-- Net effect of `removeDirectory` (src/waifu2x.ts lines 480-497) on a
filesystem modelled as the list of existing entries in resolved component
form (`[]` is the root directory).  The guard compares the raw string
against the literals `"/"` and `"./"`; past the guard the filesystem
resolves the string, every descendant is recursively deleted
(`fs.unlinkSync` / recursion), and the final `fs.rmdirSync(dir)` removes
the directory itself except for the root, where it fails and the error is
caught and logged. -/
def removeDirectoryFS (fs : List (List String)) (dir : String) :
    List (List String) :=
  if dir = "/" ∨ dir = "./" then fs
  else
    let d := resolveComponents dir
    if fs.contains d then
      fs.filter (fun q => !(isAncestorOf d q && (!d.isEmpty || q != d)))
    else fs

/-- The resolved option record of `Waifu2xGIFOptions` (src/waifu2x.ts lines
32-56): every field is optional, mirroring the TypeScript interface, with
`none` for an absent (undefined) field. -/
structure GIFOptions where
  noise : Option ℕ
  scale : Option ℚ
  mode : Option String
  blockSize : Option ℕ
  pngCompression : Option ℕ
  jpgWebpQuality : Option ℕ
  disableGPU : Option Bool
  forceOpenCL : Option Bool
  processor : Option ℕ
  threads : Option ℕ
  recursive : Option Bool
  modelDir : Option String
  rename : Option String
  waifu2xPath : Option String
  limit : Option ℕ
  parallelFrames : Option ℕ
  quality : Option ℕ
  speed : Option ℚ
  reverse : Option Bool
  cumulative : Option Bool
deriving DecidableEq

/-- Char-list form of `options.modelDir.endsWith("/")` (src/waifu2x.ts
line 147). -/
def endsWithSlash (s : String) : Bool :=
  s.data.getLast? == some '/'

/-- Char-list form of `options.modelDir.slice(0, -1)` (src/waifu2x.ts line
147). -/
def dropLastChar (s : String) : String :=
  String.mk s.data.dropLast

/-- Char-list form of `path.isAbsolute(options.modelDir)` (src/waifu2x.ts
line 148) for the POSIX-style paths the repository uses throughout. -/
def startsWithSlash (s : String) : Bool :=
  match s.data with
  | '/' :: _ => true
  | _ => false

/-- The in-place rewrite of `options.modelDir` performed by `upscaleImage`
on the shared options object (src/waifu2x.ts lines 146-149): when
`modelDir` is set (truthy, i.e. a non-empty string), a trailing slash is
stripped (`slice(0, -1)`) and a relative path is replaced by
`path.join(local, modelDir)`, with `local` the installation base
directory.  The join is modelled as plain separator concatenation; Node's
extra normalisation cannot make the result equal to the original relative
string, which is all the theorems below use.  The rewrite is idempotent,
so one application models any number of per-frame `upscaleImage` calls. -/
def upscaleImageMutateModelDir (localDir : String) (md : Option String) :
    Option String :=
  match md with
  | none => none
  | some s =>
    if s = "" then some s
    else
      let s1 := if endsWithSlash s then dropLastChar s else s
      if startsWithSlash s1 then some s1 else some (localDir ++ "/" ++ s1)

/-- The writes `upscaleGIF` performs on the caller's options object
(src/waifu2x.ts lines 262, 291, 298, 303): `if (!options.cumulative)
options.cumulative = false`, then unconditionally `options.rename = ""`,
and inside the `options.scale !== 1` branch `if (!options.parallelFrames)
options.parallelFrames = 1` followed by the per-frame `upscaleImage(f, …,
options)` calls, which receive the same shared object and rewrite
`options.modelDir` in place (lines 146-149) — so that write lands exactly
when `scale !== 1` and at least one frame is dispatched (`hasFrames`).
`upscaleImage`'s only other write, defaulting an undefined `rename` to
`"2x"` (line 123), never fires here because `rename` was just set to `""`.
In JS the object is shared by reference, so the returned record is what
the caller observes after the call. -/
def upscaleGIFMutate (localDir : String) (hasFrames : Bool) (o : GIFOptions) :
    GIFOptions :=
  let o1 :=
    if o.cumulative = none ∨ o.cumulative = some false then
      { o with cumulative := some false } else o
  let o2 := { o1 with rename := some "" }
  if o2.scale ≠ some 1 then
    let o3 :=
      if o2.parallelFrames = none ∨ o2.parallelFrames = some 0 then
        { o2 with parallelFrames := some 1 } else o2
    if hasFrames then
      { o3 with modelDir := upscaleImageMutateModelDir localDir o3.modelDir }
    else o3
  else o2

/-- A caller-supplied GIF options record used as a concrete input below. -/
def sampleGIFOptions : GIFOptions :=
  { noise := some 2, scale := some 2, mode := none, blockSize := none
    pngCompression := none, jpgWebpQuality := none, disableGPU := none
    forceOpenCL := none, processor := none, threads := none, recursive := none
    modelDir := some "models/", rename := some "2x", waifu2xPath := none
    limit := none, parallelFrames := none, quality := some 10, speed := some 1
    reverse := some false, cumulative := none }

/-- A concrete 20-frame decomposed animated image: artifact names paired
with raw per-frame delays. -/
def sampleFrames20 : List (String × ℚ) :=
  [ ( "f0", 1), ( "f1", 2), ( "f2", 3), ( "f3", 4), ( "f4", 5)
  , ( "f5", 6), ( "f6", 7), ( "f7", 8), ( "f8", 9), ( "f9", 10)
  , ( "f10", 11), ( "f11", 12), ( "f12", 13), ( "f13", 14), ( "f14", 15)
  , ( "f15", 16), ( "f16", 17), ( "f17", 18), ( "f18", 19), ( "f19", 20) ]

theorem chunkQueueAux_nil (p fuel : ℕ) : chunkQueueAux p fuel ([] : List α) = [] := by
  cases fuel <;> rfl

theorem chunkQueueAux_flatten (p : ℕ) :
    ∀ (fuel : ℕ) (l : List α), l.length ≤ fuel → (chunkQueueAux p fuel l).flatten = l := by
  intro fuel
  induction fuel with
  | zero =>
    intro l h
    have hl : l = [] := List.eq_nil_of_length_eq_zero (Nat.le_zero.mp h)
    subst hl
    rfl
  | succ n ih =>
    intro l h
    match l with
    | [] => rfl
    | x :: xs =>
      have hlen : (xs.drop p).length ≤ n := by
        simp only [List.length_drop]
        simp only [List.length_cons] at h
        omega
      simp [chunkQueueAux, ih _ hlen]

theorem chunkQueueAux_length_le (p : ℕ) :
    ∀ (fuel : ℕ) (l : List α), ∀ g ∈ chunkQueueAux p fuel l, g.length ≤ p + 1 ∧ g ≠ [] := by
  intro fuel
  induction fuel with
  | zero =>
    intro l g hg
    cases l <;> simp [chunkQueueAux] at hg
  | succ n ih =>
    intro l g hg
    match l with
    | [] => simp [chunkQueueAux] at hg
    | x :: xs =>
      simp only [chunkQueueAux, List.mem_cons] at hg
      rcases hg with rfl | hg
      · refine ⟨?_, by simp⟩
        simp only [List.length_cons, List.length_take]
        omega
      · exact ih _ g hg

theorem chunkQueueAux_dropLast_length (p : ℕ) :
    ∀ (fuel : ℕ) (l : List α), ∀ g ∈ (chunkQueueAux p fuel l).dropLast, g.length = p + 1 := by
  intro fuel
  induction fuel with
  | zero =>
    intro l g hg
    cases l <;> simp [chunkQueueAux] at hg
  | succ n ih =>
    intro l g hg
    match l with
    | [] => simp [chunkQueueAux] at hg
    | x :: xs =>
      simp only [chunkQueueAux] at hg
      by_cases hrest : chunkQueueAux p n (xs.drop p) = []
      · rw [hrest] at hg
        simp at hg
      · rw [List.dropLast_cons_of_ne_nil hrest, List.mem_cons] at hg
        rcases hg with rfl | hg
        · have hd : xs.drop p ≠ [] := by
            intro hnil
            rw [hnil, chunkQueueAux_nil] at hrest
            exact hrest rfl
          have hp : p ≤ xs.length := by
            by_contra hlt
            exact hd (List.drop_eq_nil_of_le (by omega))
          simp only [List.length_cons, List.length_take]
          omega
        · exact ih _ g hg

/-- Claim C10: for every frame list and parallelism `P ≥ 1`, the group
queue built by the scheduler is an ordered partition of the list — the
concatenation of the groups in queue order is the original list, every
group is nonempty of size at most `P`, and every group except possibly the
last has size exactly `P`. -/
theorem buildQueue_ordered_partition (P : ℕ) (l : List α) (hP : 1 ≤ P) :
    (buildQueue P l).flatten = l
    ∧ (∀ g ∈ buildQueue P l, g.length ≤ P ∧ g ≠ [])
    ∧ (∀ g ∈ (buildQueue P l).dropLast, g.length = P) := by
  have hPz : P ≠ 0 := by omega
  have hsub : P - 1 + 1 = P := by omega
  unfold buildQueue
  rw [if_neg hPz]
  refine ⟨chunkQueueAux_flatten _ _ l le_rfl, ?_, ?_⟩
  · intro g hg
    have h2 := chunkQueueAux_length_le (P - 1) l.length l g hg
    rw [hsub] at h2
    exact h2
  · intro g hg
    have h2 := chunkQueueAux_dropLast_length (P - 1) l.length l g hg
    rw [hsub] at h2
    exact h2

/-- Witness for C10 at `P = 2` on a five-element list. -/
theorem buildQueue_ordered_partition_witness :
    (buildQueue 2 [0, 1, 2, 3, 4]).flatten = [0, 1, 2, 3, 4]
    ∧ (buildQueue 2 ([0, 1, 2, 3, 4] : List ℕ)).map List.length = [2, 2, 1] :=
  ⟨(buildQueue_ordered_partition 2 [0, 1, 2, 3, 4] (by decide)).1, by decide⟩

theorem runFrame_dispatched (work : α → β) (progress : Option (ℕ → ℕ → Bool))
    (total : ℕ) (st : SchedState α β) (f : α) :
    (runFrame work progress total st f).dispatched = st.dispatched ++ [f] := by
  cases progress <;> rfl

theorem runFrame_cancel_mono (work : α → β) (progress : Option (ℕ → ℕ → Bool))
    (total : ℕ) (st : SchedState α β) (f : α) (h : st.cancel = true) :
    (runFrame work progress total st f).cancel = true := by
  cases progress <;> simp [runFrame, h]

/-- Every frame of a group is dispatched and settles: `Promise.all` joins
the whole group (src/waifu2x.ts lines 205-211, 302-307). -/
theorem runGroupGIF_dispatched (work : α → β) (progress : Option (ℕ → ℕ → Bool))
    (total : ℕ) (g : List α) :
    ∀ st : SchedState α β, (runGroupGIF work progress total st g).dispatched
      = st.dispatched ++ g := by
  induction g with
  | nil => intro st; simp [runGroupGIF]
  | cons f fs ih =>
    intro st
    show (runGroupGIF work progress total (runFrame work progress total st f) fs).dispatched
      = st.dispatched ++ f :: fs
    rw [ih, runFrame_dispatched]
    simp

theorem runGroupGIF_cancel_mono (work : α → β) (progress : Option (ℕ → ℕ → Bool))
    (total : ℕ) (g : List α) :
    ∀ st : SchedState α β, st.cancel = true →
      (runGroupGIF work progress total st g).cancel = true := by
  induction g with
  | nil => intro st h; exact h
  | cons f fs ih =>
    intro st h
    exact ih _ (runFrame_cancel_mono work progress total st f h)

/-- Claim C2: for every frame set partitioned into groups, if the cancel
flag is first raised while group `g` (preceded by the groups `pre`,
followed by the groups `post`) is being processed, then the scheduling loop
halts exactly at the state obtained by fully draining group `g`: every
frame of `g` is still dispatched and settles, and no frame of any group in
`post` is ever dispatched. -/
theorem scheduler_stop_drains_current_group (work : α → β) (p : ℕ → ℕ → Bool)
    (total : ℕ) :
    ∀ (pre : List (List α)) (st0 : SchedState α β) (g : List α) (post : List (List α)),
      (runQueueSched (runGroupGIF work (some p) total) pre st0).cancel = false →
      (runGroupGIF work (some p) total
        (runQueueSched (runGroupGIF work (some p) total) pre st0) g).cancel = true →
      runQueueSched (runGroupGIF work (some p) total) (pre ++ g :: post) st0
        = runGroupGIF work (some p) total
            (runQueueSched (runGroupGIF work (some p) total) pre st0) g
      ∧ (runQueueSched (runGroupGIF work (some p) total) (pre ++ g :: post) st0).dispatched
        = (runQueueSched (runGroupGIF work (some p) total) pre st0).dispatched ++ g := by
  intro pre
  induction pre with
  | nil =>
    intro st0 g post h0 hstop
    have hrun : runQueueSched (runGroupGIF work (some p) total) (g :: post) st0
        = runGroupGIF work (some p) total st0 g := by
      simp only [runQueueSched]
      rw [if_pos]
      exact hstop
    refine ⟨by simpa using hrun, ?_⟩
    simp only [List.nil_append, runQueueSched] at *
    rw [hrun, runGroupGIF_dispatched]
  | cons q pre ih =>
    intro st0 g post h0 hstop
    by_cases hq : (runGroupGIF work (some p) total st0 q).cancel = true
    · exfalso
      have : runQueueSched (runGroupGIF work (some p) total) (q :: pre) st0
          = runGroupGIF work (some p) total st0 q := by
        simp only [runQueueSched]
        rw [if_pos hq]
      rw [this, hq] at h0
      exact Bool.true_eq_false.mp h0
    · have hq2 : (runGroupGIF work (some p) total st0 q).cancel = false :=
        Bool.not_eq_true _ |>.mp hq
      have hpre : runQueueSched (runGroupGIF work (some p) total) (q :: pre) st0
          = runQueueSched (runGroupGIF work (some p) total) pre
              (runGroupGIF work (some p) total st0 q) := by
        simp only [runQueueSched]
        rw [if_neg (by simp [hq2])]
      have hfull : runQueueSched (runGroupGIF work (some p) total) ((q :: pre) ++ g :: post) st0
          = runQueueSched (runGroupGIF work (some p) total) (pre ++ g :: post)
              (runGroupGIF work (some p) total st0 q) := by
        simp only [List.cons_append, runQueueSched]
        rw [if_neg (by simp [hq2])]
        rfl
      rw [hpre] at h0 hstop
      rw [hfull, hpre]
      exact ih (runGroupGIF work (some p) total st0 q) g post h0 hstop

/-- Witness for C2: nine frames in three groups of three, the progress
callback signals stop at completed count 5 (inside the second group); the
second group is drained, the third is never dispatched. -/
theorem scheduler_stop_drains_current_group_witness :
    runQueueSched (runGroupGIF (fun n : ℕ => n) (some (fun c _ => c == 5)) 9)
        ([[0, 1, 2]] ++ [3, 4, 5] :: [[6, 7, 8]]) ⟨1, false, [], [], [(0, 9)]⟩
      = runGroupGIF (fun n : ℕ => n) (some (fun c _ => c == 5)) 9
          (runQueueSched (runGroupGIF (fun n : ℕ => n) (some (fun c _ => c == 5)) 9)
            [[0, 1, 2]] ⟨1, false, [], [], [(0, 9)]⟩) [3, 4, 5]
    ∧ (runQueueSched (runGroupGIF (fun n : ℕ => n) (some (fun c _ => c == 5)) 9)
        ([[0, 1, 2]] ++ [3, 4, 5] :: [[6, 7, 8]]) ⟨1, false, [], [], [(0, 9)]⟩).dispatched
      = (runQueueSched (runGroupGIF (fun n : ℕ => n) (some (fun c _ => c == 5)) 9)
          [[0, 1, 2]] ⟨1, false, [], [], [(0, 9)]⟩).dispatched ++ [3, 4, 5] :=
  scheduler_stop_drains_current_group (fun n : ℕ => n) (fun c _ => c == 5) 9
    [[0, 1, 2]] ⟨1, false, [], [], [(0, 9)]⟩ [3, 4, 5] [[6, 7, 8]]
    (by decide) (by decide)

theorem chunkQueueAux_zero :
    ∀ (fuel : ℕ) (l : List α), l.length ≤ fuel →
      chunkQueueAux 0 fuel l = l.map (fun x => [x]) := by
  intro fuel
  induction fuel with
  | zero =>
    intro l h
    have hl : l = [] := List.eq_nil_of_length_eq_zero (Nat.le_zero.mp h)
    subst hl
    rfl
  | succ n ih =>
    intro l h
    match l with
    | [] => rfl
    | x :: xs =>
      have hlen : xs.length ≤ n := by
        simp only [List.length_cons] at h
        omega
      simp only [chunkQueueAux, List.take_zero, List.drop_zero, List.map_cons]
      rw [ih xs hlen]

/-- With `parallelFrames = 1`, a progress callback that never signals stop
and a positive limit, the `upscaleImages` loop dispatches exactly the first
`L` frames: the limit check `counter >= options.limit` fires on entering
the group of the `L`-th frame, which is still drained, and the loop then
breaks. -/
theorem runQueue_images_take (work : α → β) (total L : ℕ) :
    ∀ (frames : List α) (st : SchedState α β), st.cancel = false → st.counter ≤ L →
      (runQueueSched (runGroupImages work (some (fun _ _ => false)) total L)
          (frames.map (fun x => [x])) st).dispatched
        = st.dispatched ++ frames.take (L + 1 - st.counter)
      ∧ (runQueueSched (runGroupImages work (some (fun _ _ => false)) total L)
          (frames.map (fun x => [x])) st).results
        = st.results ++ (frames.take (L + 1 - st.counter)).map work := by
  intro frames
  induction frames with
  | nil =>
    intro st hc hcount
    simp [runQueueSched]
  | cons f fs ih =>
    intro st hc hcount
    have hgroup : runGroupImages work (some (fun _ _ => false)) total L st [f]
        = runFrame work (some (fun _ _ => false)) total
            (if L ≤ st.counter then { st with cancel := true } else st) f := by
      rfl
    by_cases hL : L ≤ st.counter
    · have hEq : st.counter = L := le_antisymm hcount hL
      have hcancel : (runGroupImages work (some (fun _ _ => false)) total L st [f]).cancel
          = true := by
        rw [hgroup, if_pos hL]
        simp [runFrame]
      have htake : L + 1 - st.counter = 1 := by omega
      simp only [List.map_cons, runQueueSched]
      rw [if_pos hcancel, hgroup, if_pos hL, htake]
      constructor
      · simp [runFrame]
      · simp [runFrame]
    · have hlt : st.counter < L := lt_of_le_of_ne (le_of_not_le (by omega)) (by omega)
      have hst1 : runGroupImages work (some (fun _ _ => false)) total L st [f]
          = runFrame work (some (fun _ _ => false)) total st f := by
        rw [hgroup, if_neg hL]
      have hcancel : (runGroupImages work (some (fun _ _ => false)) total L st [f]).cancel
          = false := by
        rw [hst1]
        simp [runFrame, hc]
      simp only [List.map_cons, runQueueSched]
      rw [if_neg (by simp [hcancel]), hst1]
      have hrec := ih (runFrame work (some (fun _ _ => false)) total st f)
        (by simp [runFrame, hc]) (by simp [runFrame]; omega)
      have hcounterEq : (runFrame work (some (fun _ _ => false)) total st f).counter
          = st.counter + 1 := by simp [runFrame]
      rw [hcounterEq] at hrec
      have hdisp : (runFrame work (some (fun _ _ => false)) total st f).dispatched
          = st.dispatched ++ [f] := by simp [runFrame]
      have hres : (runFrame work (some (fun _ _ => false)) total st f).results
          = st.results ++ [work f] := by simp [runFrame]
      rw [hdisp, hres] at hrec
      have harith : L + 1 - st.counter = (L + 1 - (st.counter + 1)) + 1 := by omega
      rw [harith]
      constructor
      · rw [hrec.1, List.take_succ_cons]
        simp
      · rw [hrec.2, List.take_succ_cons]
        simp

/-- Amended claim C1: with parallelism `P = 1` and a progress callback
supplied that never signals stop, for every item limit `L ≥ 1` the
`upscaleImages` scheduling loop dispatches exactly the frames of ordinal
`< min(L, total)`, in order, each yielding its work-function output, and
no frame of ordinal `≥ min(L, total)` is ever dispatched. -/
theorem upscaleImages_limit_sequential (work : α → β) (frames : List α) (L : ℕ)
    (hL : 1 ≤ L) :
    (upscaleImagesSched 1 L work (some (fun _ _ => false)) frames).dispatched
      = frames.take L
    ∧ (upscaleImagesSched 1 L work (some (fun _ _ => false)) frames).results
      = (frames.take L).map work
    ∧ (upscaleImagesSched 1 L work (some (fun _ _ => false)) frames).dispatched.length
      = min L frames.length := by
  have hqueue : buildQueue 1 frames = frames.map (fun x => [x]) := by
    unfold buildQueue
    simp only [if_neg (one_ne_zero)]
    exact chunkQueueAux_zero frames.length frames le_rfl
  have hLz : L ≠ 0 := by omega
  simp only [upscaleImagesSched, if_neg hLz, hqueue]
  have h := runQueue_images_take work frames.length L frames
    { counter := 1, cancel := false, dispatched := [], results := [], calls := [(0, frames.length)] }
    rfl (by simpa using hL)
  simp only at h
  have htake : L + 1 - 1 = L := by omega
  rw [htake] at h
  refine ⟨by simpa using h.1, by simpa using h.2, ?_⟩
  have h1 : (runQueueSched (runGroupImages work (some fun _ _ => false) frames.length L)
      (frames.map fun x => [x])
      { counter := 1, cancel := false, dispatched := [], results := [],
        calls := [(0, frames.length)] }).dispatched = frames.take L := by simpa using h.1
  rw [h1, List.length_take]

/-- Witness for the amended C1: three frames, limit 2, parallelism 1 —
exactly the first two frames are dispatched. -/
theorem upscaleImages_limit_sequential_witness :
    (upscaleImagesSched 1 2 (fun n : ℕ => n + 100) (some (fun _ _ => false))
        [0, 1, 2]).dispatched = [0, 1, 2].take 2
    ∧ (upscaleImagesSched 1 2 (fun n : ℕ => n + 100) (some (fun _ _ => false))
        [0, 1, 2]).results = ([0, 1, 2].take 2).map (fun n : ℕ => n + 100)
    ∧ (upscaleImagesSched 1 2 (fun n : ℕ => n + 100) (some (fun _ _ => false))
        [0, 1, 2]).dispatched.length = min 2 [0, 1, 2].length :=
  upscaleImages_limit_sequential (fun n : ℕ => n + 100) [0, 1, 2] 2 (by decide)

/-- Counterexample to C1 as stated: with three frames, item limit `L = 1 <
3` and parallelism `P = 2`, the loop dispatches both frames of the first
group — 2 frames rather than `min(L, total) = 1`, and frame ordinal `1 ≥
min(L, total)` is handed to the work function. -/
theorem upscaleImages_limit_counterexample :
    (upscaleImagesSched 2 1 (fun n : ℕ => n) (some (fun _ _ => false))
        [0, 1, 2]).dispatched = [0, 1]
    ∧ (upscaleImagesSched 2 1 (fun n : ℕ => n) (some (fun _ _ => false))
        [0, 1, 2]).dispatched.length ≠ min 1 [0, 1, 2].length := by
  decide

/-- Claim C3: for every 10-frame animated-image job with `parallelFrames =
3`, a progress callback supplied and no cancellation, the scheduler forms
exactly 4 groups of sizes `[3, 3, 3, 1]` and invokes the progress callback
exactly 11 times, once at the start with `(0, 10)` and once after each
completed frame with `(1, 10) … (10, 10)`. -/
theorem gif_ten_frames_progress_schedule (work : α → β) (frames : List α)
    (h : frames.length = 10) :
    (buildQueue 3 frames).map List.length = [3, 3, 3, 1]
    ∧ (upscaleGIFSched 3 work (some (fun _ _ => false)) frames).calls
      = [(0, 10), (1, 10), (2, 10), (3, 10), (4, 10), (5, 10), (6, 10), (7, 10),
         (8, 10), (9, 10), (10, 10)]
    ∧ (upscaleGIFSched 3 work (some (fun _ _ => false)) frames).calls.length = 11 := by
  rcases frames with _ | ⟨a1, _ | ⟨a2, _ | ⟨a3, _ | ⟨a4, _ | ⟨a5, _ | ⟨a6, _ |
    ⟨a7, _ | ⟨a8, _ | ⟨a9, _ | ⟨a10, t⟩⟩⟩⟩⟩⟩⟩⟩⟩⟩ <;>
    simp only [List.length_cons, List.length_nil] at h <;> try omega
  have ht : t = [] := List.eq_nil_of_length_eq_zero (by omega)
  subst ht
  exact ⟨rfl, rfl, rfl⟩

/-- Witness for C3 on the concrete frame list `0 … 9`. -/
theorem gif_ten_frames_progress_schedule_witness :
    (buildQueue 3 [0, 1, 2, 3, 4, 5, 6, 7, 8, 9]).map List.length = [3, 3, 3, 1]
    ∧ (upscaleGIFSched 3 (fun n : ℕ => n) (some (fun _ _ => false))
        [0, 1, 2, 3, 4, 5, 6, 7, 8, 9]).calls
      = [(0, 10), (1, 10), (2, 10), (3, 10), (4, 10), (5, 10), (6, 10), (7, 10),
         (8, 10), (9, 10), (10, 10)]
    ∧ (upscaleGIFSched 3 (fun n : ℕ => n) (some (fun _ _ => false))
        [0, 1, 2, 3, 4, 5, 6, 7, 8, 9]).calls.length = 11 :=
  gif_ten_frames_progress_schedule (fun n : ℕ => n) [0, 1, 2, 3, 4, 5, 6, 7, 8, 9] rfl

theorem strideIndicesAux_one (n : ℕ) :
    ∀ (fuel i : ℕ), n ≤ i + fuel →
      strideIndicesAux n 1 i fuel = List.range' i (n - i) := by
  intro fuel
  induction fuel with
  | zero =>
    intro i h
    have : n - i = 0 := by omega
    rw [this]
    rfl
  | succ m ih =>
    intro i h
    by_cases hi : i < n
    · have hsub : n - i = (n - (i + 1)) + 1 := by omega
      simp only [strideIndicesAux, if_pos hi, hsub, List.range'_succ]
      rw [ih (i + 1) (by omega)]
    · have : n - i = 0 := by omega
      simp only [strideIndicesAux, if_neg hi, this]
      rfl

theorem strideIndices_one (n : ℕ) : strideIndices n 1 = List.range n := by
  unfold strideIndices
  rw [strideIndicesAux_one n n 0 (by omega), List.range_eq_range']
  simp

theorem filterMap_getElem_range {γ : Type*} (fn : α → γ) :
    ∀ l : List α, (List.range l.length).filterMap (fun i => (l[i]?).map fn)
      = l.map fn := by
  intro l
  induction l with
  | nil => rfl
  | cons x xs ih =>
    rw [List.length_cons, List.range_succ_eq_map, List.filterMap_cons,
      List.filterMap_map]
    have hcomp : ((fun i => Option.map fn (x :: xs)[i]?) ∘ Nat.succ)
        = fun i => Option.map fn xs[i]? := by
      funext i
      simp [Function.comp]
    rw [hcomp, ih]
    simp

/-- Claim C4: in animated-image upscaling, if `speed > 1` frames are
subsampled at the fixed stride `ceil(total / (total / speed))` computed
when selecting which decomposed frames to keep, and the retained per-frame
delays are left unchanged; if `speed < 1` the stride is 1 (no
subsampling), every frame is retained, and every retained delay is divided
by `speed`. -/
theorem gif_speed_timing_transform (speed : ℚ) (frames : List (String × ℚ))
    (hne : frames ≠ []) :
    (1 < speed →
      gifStep speed frames.length
        = ⌈(frames.length : ℚ) / ((frames.length : ℚ) / speed)⌉
      ∧ adjustDelays speed (downloadFrames frames (gifStepNat speed frames.length)).2
        = (downloadFrames frames (gifStepNat speed frames.length)).2)
    ∧ (speed < 1 →
      gifStepNat speed frames.length = 1
      ∧ (downloadFrames frames (gifStepNat speed frames.length)).1
        = frames.map Prod.fst
      ∧ adjustDelays speed (downloadFrames frames (gifStepNat speed frames.length)).2
        = frames.map (fun fr => fr.2 / speed)) := by
  have hn : frames.length ≠ 0 := by
    intro h0
    exact hne (List.eq_nil_of_length_eq_zero h0)
  constructor
  · intro hfast
    constructor
    · unfold gifStep gifConstraint
      rw [if_pos hfast]
    · unfold adjustDelays
      rw [if_neg (by linarith)]
  · intro hslow
    have hstep : gifStepNat speed frames.length = 1 := by
      unfold gifStepNat gifStep gifConstraint
      rw [if_neg (by linarith)]
      rw [div_self (by exact_mod_cast hn)]
      simp
    refine ⟨hstep, ?_, ?_⟩
    · rw [hstep]
      unfold downloadFrames
      simp only
      rw [strideIndices_one, filterMap_getElem_range]
    · rw [hstep]
      unfold adjustDelays downloadFrames
      rw [if_pos hslow]
      simp only
      rw [strideIndices_one, filterMap_getElem_range]
      rw [List.map_map]
      rfl

/-- Witness for C4: `speed = 2` on the concrete 20-frame input gives stride
`ceil(20 / 10) = 2`, 10 retained frames with their delays unchanged; and
`speed = 1/2` keeps all 20 frames and doubles every delay. -/
theorem gif_speed_timing_transform_witness :
    gifStep 2 sampleFrames20.length
      = ⌈(sampleFrames20.length : ℚ) / ((sampleFrames20.length : ℚ) / 2)⌉
    ∧ gifStepNat 2 sampleFrames20.length = 2
    ∧ (downloadFrames sampleFrames20 (gifStepNat 2 sampleFrames20.length)).1.length = 10
    ∧ adjustDelays 2 (downloadFrames sampleFrames20 (gifStepNat 2 sampleFrames20.length)).2
      = (downloadFrames sampleFrames20 (gifStepNat 2 sampleFrames20.length)).2
    ∧ (downloadFrames sampleFrames20 (gifStepNat (1/2) sampleFrames20.length)).1
      = sampleFrames20.map Prod.fst
    ∧ adjustDelays (1/2) (downloadFrames sampleFrames20
        (gifStepNat (1/2) sampleFrames20.length)).2
      = sampleFrames20.map (fun fr => fr.2 / (1/2)) := by
  have hstep : gifStepNat 2 sampleFrames20.length = 2 := by
    show gifStepNat 2 20 = 2
    unfold gifStepNat gifStep gifConstraint
    rw [if_pos (by norm_num)]
    rw [show ((20 : ℕ) : ℚ) / (((20 : ℕ) : ℚ) / 2) = ((2 : ℤ) : ℚ) by push_cast; norm_num,
      Int.ceil_intCast]
    rfl
  refine ⟨((gif_speed_timing_transform 2 sampleFrames20 (by decide)).1 (by norm_num)).1,
    hstep, ?_,
    ((gif_speed_timing_transform 2 sampleFrames20 (by decide)).1 (by norm_num)).2,
    ((gif_speed_timing_transform (1/2) sampleFrames20 (by decide)).2 (by norm_num)).2.1,
    ((gif_speed_timing_transform (1/2) sampleFrames20 (by decide)).2 (by norm_num)).2.2⟩
  rw [hstep]
  decide

theorem zip_reverse_of_length_eq {γ : Type*} :
    ∀ (l1 : List α) (l2 : List γ), l1.length = l2.length →
      l1.reverse.zip l2.reverse = (l1.zip l2).reverse := by
  intro l1
  induction l1 with
  | nil =>
    intro l2 h
    have hl : l2 = [] := List.eq_nil_of_length_eq_zero h.symm
    subst hl
    rfl
  | cons x xs ih =>
    intro l2 h
    match l2 with
    | [] => simp at h
    | y :: ys =>
      have hlen : xs.length = ys.length := by simpa using h
      simp only [List.reverse_cons]
      rw [List.zip_append (by simp [hlen]), ih ys hlen]
      simp

/-- Claim C5: the reverse step reverses the frame sequence and its parallel
delay sequence together — applying it twice restores both sequences
(involution), the two sequences keep equal lengths, and the index-aligned
pairing after the step is exactly the reversal of the pairing before it. -/
theorem reverse_involution_alignment (rev : Bool) (frames : List α)
    (delays : List ℚ) (h : frames.length = delays.length) :
    reverseStep rev (reverseStep rev frames delays).1 (reverseStep rev frames delays).2
      = (frames, delays)
    ∧ (reverseStep rev frames delays).1.length = (reverseStep rev frames delays).2.length
    ∧ (reverseStep rev frames delays).1.zip (reverseStep rev frames delays).2
      = (if rev then (frames.zip delays).reverse else frames.zip delays) := by
  cases rev with
  | false => simp [reverseStep, h]
  | true =>
    refine ⟨by simp [reverseStep], by simp [reverseStep, h], ?_⟩
    simp only [reverseStep, if_pos]
    exact zip_reverse_of_length_eq frames delays h

/-- Witness for C5 on concrete frame and delay lists of length three. -/
theorem reverse_involution_alignment_witness :
    reverseStep true (reverseStep true ([1, 2, 3] : List ℕ) [4, 5, 6]).1
        (reverseStep true ([1, 2, 3] : List ℕ) [4, 5, 6]).2
      = ([1, 2, 3], ([4, 5, 6] : List ℚ))
    ∧ (reverseStep true ([1, 2, 3] : List ℕ) [4, 5, 6]).1.length
      = (reverseStep true ([1, 2, 3] : List ℕ) [4, 5, 6]).2.length
    ∧ (reverseStep true ([1, 2, 3] : List ℕ) [4, 5, 6]).1.zip
        (reverseStep true ([1, 2, 3] : List ℕ) [4, 5, 6]).2
      = (if true then (([1, 2, 3] : List ℕ).zip ([4, 5, 6] : List ℚ)).reverse
         else ([1, 2, 3] : List ℕ).zip ([4, 5, 6] : List ℚ)) :=
  reverse_involution_alignment true [1, 2, 3] [4, 5, 6] rfl

/-- Counterexample to C6 as stated: a job whose encode stage raises ends
with the workspace still on disk — the trailing `removeDirectory(frameDest)`
call is skipped because the error propagates past it. -/
theorem gif_cleanup_skipped_on_error :
    (upscaleGIFCleanupTrace (Except.ok [ "frame0.jpg" ])
        (fun l => Except.ok l) (fun _ => Except.error "encode failed")).2 = false := rfl

/-- Amended claim C6: workspace release runs exactly on the success path —
`removeDirectory(frameDest)` executes if and only if every pipeline stage
returns normally; on any raised error the workspace subtree outlives the
job (it is only deleted by the pre-clean of a later run at the same path). -/
theorem gif_cleanup_iff_success (extract : Except String (List String))
    (upscaleAll : List String → Except String (List String))
    (encode : List String → Except String String) :
    (upscaleGIFCleanupTrace extract upscaleAll encode).2 = true
      ↔ ∃ out, (upscaleGIFCleanupTrace extract upscaleAll encode).1
        = Except.ok out := by
  unfold upscaleGIFCleanupTrace
  cases extract with
  | error e => simp
  | ok frames =>
    cases h1 : upscaleAll frames with
    | error e => simp [h1]
    | ok scaled =>
      cases h2 : encode scaled with
      | error e => simp [h1, h2]
      | ok out => simp [h1, h2]

/-- Amended claim C7: the teardown routine is a no-op exactly when the
raw path string is the literal `"/"` or the literal `"./"` — the guard
compares strings, it does not resolve the path first. -/
theorem removeDirectory_literal_guard (fs : List (List String)) (dir : String)
    (h : dir = "/" ∨ dir = "./") : removeDirectoryFS fs dir = fs := by
  unfold removeDirectoryFS
  rw [if_pos h]

/-- Witness for the amended C7: deleting `"/"` leaves the filesystem
intact. -/
theorem removeDirectory_literal_guard_witness :
    removeDirectoryFS [ [], [ "etc" ], [ "etc", "passwd" ] ] "/"
      = [ [], [ "etc" ], [ "etc", "passwd" ] ] :=
  removeDirectory_literal_guard [ [], [ "etc" ], [ "etc", "passwd" ] ] "/" (Or.inl rfl)

/-- Counterexample to C7 as stated: the path `"/."` resolves to the
filesystem root, yet `removeDirectory` is not a no-op on it — the guard
only matches the literal strings, so the routine recursively deletes
everything under the root (the root entry itself survives only because the
final `rmdirSync` fails and is caught). -/
theorem removeDirectory_resolved_root_counterexample :
    resolveComponents "/." = resolveComponents "/"
    ∧ removeDirectoryFS [ [], [ "etc" ], [ "etc", "passwd" ] ] "/." = [ [] ]
    ∧ removeDirectoryFS [ [], [ "etc" ], [ "etc", "passwd" ] ] "/."
      ≠ [ [], [ "etc" ], [ "etc", "passwd" ] ] := by
  decide

/-- Claim C8: when the requested scale factor is exactly 1, the scale
branch skips the per-frame work function entirely — nothing is dispatched
— and the frames are passed through unchanged to reassembly; in particular
a single frame is returned exactly as the input reference. -/
theorem scale_one_skips_work (parallelFrames : ℕ) (work : α → α)
    (progress : Option (ℕ → ℕ → Bool)) (frames : List α) :
    gifScaleBranch (some 1) parallelFrames work progress frames = (frames, [])
    ∧ ∀ f : α, gifScaleBranch (some 1) parallelFrames work progress [f] = ([f], []) := by
  constructor
  · unfold gifScaleBranch
    rw [if_neg (by simp)]
  · intro f
    unfold gifScaleBranch
    rw [if_neg (by simp)]

/-- Counterexample to C9 as stated: `upscaleGIF` mutates the caller's
options record — after a call with installation base `"/app"` and a
nonempty frame set, the observed record differs from the one passed in:
`rename` has been overwritten with the empty string and `modelDir
"models/"` has been rewritten in place to the absolute `"/app/models"` by
the nested `upscaleImage` call. -/
theorem options_mutated_counterexample :
    upscaleGIFMutate "/app" true sampleGIFOptions ≠ sampleGIFOptions
    ∧ (upscaleGIFMutate "/app" true sampleGIFOptions).modelDir = some "/app/models"
    ∧ (upscaleGIFMutate "/app" true sampleGIFOptions).modelDir ≠ sampleGIFOptions.modelDir
    ∧ (upscaleGIFMutate "/app" true sampleGIFOptions).rename = some "" := by
  decide

/-- Amended claim C9: the resolved configuration is not immutable —
`upscaleGIF` overwrites `rename` with `""`, materialises defaults for
`cumulative` and (when `scale ≠ 1`) `parallelFrames`, and, when `scale ≠
1` and at least one frame is dispatched, rewrites `modelDir` in place via
the nested `upscaleImage` call (trailing slash stripped, relative path
made absolute against the installation base directory); every other
option field is left exactly as passed in. -/
theorem upscaleGIF_option_mutation_profile (localDir : String) (hasFrames : Bool)
    (o : GIFOptions) :
    (upscaleGIFMutate localDir hasFrames o).rename = some ""
    ∧ (upscaleGIFMutate localDir hasFrames o).scale = o.scale
    ∧ (upscaleGIFMutate localDir hasFrames o).noise = o.noise
    ∧ (upscaleGIFMutate localDir hasFrames o).mode = o.mode
    ∧ (upscaleGIFMutate localDir hasFrames o).blockSize = o.blockSize
    ∧ (upscaleGIFMutate localDir hasFrames o).pngCompression = o.pngCompression
    ∧ (upscaleGIFMutate localDir hasFrames o).jpgWebpQuality = o.jpgWebpQuality
    ∧ (upscaleGIFMutate localDir hasFrames o).disableGPU = o.disableGPU
    ∧ (upscaleGIFMutate localDir hasFrames o).forceOpenCL = o.forceOpenCL
    ∧ (upscaleGIFMutate localDir hasFrames o).processor = o.processor
    ∧ (upscaleGIFMutate localDir hasFrames o).threads = o.threads
    ∧ (upscaleGIFMutate localDir hasFrames o).recursive = o.recursive
    ∧ (upscaleGIFMutate localDir hasFrames o).waifu2xPath = o.waifu2xPath
    ∧ (upscaleGIFMutate localDir hasFrames o).limit = o.limit
    ∧ (upscaleGIFMutate localDir hasFrames o).quality = o.quality
    ∧ (upscaleGIFMutate localDir hasFrames o).speed = o.speed
    ∧ (upscaleGIFMutate localDir hasFrames o).reverse = o.reverse
    ∧ (upscaleGIFMutate localDir hasFrames o).cumulative
      = some (o.cumulative == some true)
    ∧ (upscaleGIFMutate localDir hasFrames o).parallelFrames
      = (if o.scale ≠ some 1 ∧ (o.parallelFrames = none ∨ o.parallelFrames = some 0)
         then some 1 else o.parallelFrames)
    ∧ (upscaleGIFMutate localDir hasFrames o).modelDir
      = (if o.scale ≠ some 1 then
           (if hasFrames then upscaleImageMutateModelDir localDir o.modelDir
            else o.modelDir)
         else o.modelDir) := by
  rcases hcum : o.cumulative with _ | b
  · simp only [upscaleGIFMutate, hcum]
    split_ifs <;> simp_all
  · cases b <;> simp only [upscaleGIFMutate, hcum] <;> split_ifs <;> simp_all

end Waifu2x
